import Mathlib

/-!
Verification development for the crisp interpreter (a minimal Lisp-family
language kernel written in Rust).

The development shallowly embeds the two modules the claims are about:

* `Parsers` embeds `src/parsers.rs`: the five recognizers (integer, special
  literal, string, symbol, bracketed form) and the top-level `parse` driver.
  Note that `src/parsers.rs` in this snapshot constructs `Value::Symbol`
  as a struct variant carrying a separate `quoted: bool` flag (and its
  symbol regex knows only the single-quote marker); the embedding mirrors
  that file as written, with its own `Parsers.Value` type.
* `Crisp` embeds `src/crisp.rs` together with `src/builtins.rs`: the
  `Value`/`Symbol` data model, the `Environment` (frame stack + function
  table), the evaluator, and every registered builtin.

Modelling conventions:
* Rust `i32` is embedded as `Int`; the arithmetic closures wrap to two's
  complement (release-profile overflow semantics, which no claim depends
  on), while `/` models Rust's division, whose zero-divisor and
  `MIN / -1` cases abort (they are checked in every build profile).
* Mutation of `&mut Environment` becomes explicit state passing: every
  evaluation step returns an `Out` value carrying the (possibly mutated)
  environment, also on the error path, mirroring how `?` returns early
  while keeping mutations already performed.
* A Rust process abort (an `unwrap` failure or an arithmetic abort) is the
  distinguished result `Out.panicked`; recursion is bounded by an explicit
  fuel parameter whose exhaustion is the distinguished result
  `Out.timeout` (the Rust code recurses natively; fuel is only the
  embedding's termination device).
* `HashMap` becomes an association list queried front-to-back and updated
  by consing (only `get`/`contains`/`insert` are used by the source, so
  the two agree observationally); the frame stack `Vec` (pushed/popped at
  the back) is stored innermost-frame-first, i.e. reversed.
-/

namespace Crisp

/-- Quote modes of a symbol, from `crisp.rs` (`enum Quote`). -/
inductive Quote where
  | None
  | Single
  | Eval
deriving DecidableEq, Repr

/-- A symbol: name, quote mode, rest flag, from `crisp.rs` (`struct Symbol`).
Rust's manual `PartialEq` compares all three fields, i.e. it is structural,
matching the derived decidable equality. -/
structure Symbol where
  name : String
  quote : Quote
  rest : Bool
deriving DecidableEq, Repr

def Symbol.new (name : String) (quote : Quote) (rest : Bool) : Symbol :=
  ⟨name, quote, rest⟩

def Symbol.from_str (name : String) : Symbol :=
  Symbol.new name Quote.None false

def Symbol.to_string (s : Symbol) : String :=
  s.name

end Crisp

namespace Parsers

/-- Parse errors, from `parsers.rs` (`enum ParserError`). -/
inductive ParserError where
  | MalformedInput (msg : String)
  | IntegerOverflow
  | InvalidEscapeSequence (c : Char)
  | UnmatchedParentheses
  | EmptyFuncall
  | InvalidFuncall
  | NoMatchingParser
deriving DecidableEq, Repr

/-- The value shape `parsers.rs` builds: its `Value::Symbol` is a struct
variant `{ symbol, quoted }` carrying a boolean single-quote flag next to
the symbol (this snapshot of `parsers.rs` predates the `Quote`-enum model
of `crisp.rs`). -/
inductive Value where
  | Nil
  | T
  | Integer (i : Int)
  | String (s : String)
  | Symbol (symbol : Crisp.Symbol) (quoted : Bool)
  | Funcall (symbol : Crisp.Symbol) (args : List Value)
  | List (elements : List Value)

/-- ASCII digit test, the `[0-9]` character class. -/
def isAsciiDigit (c : Char) : Bool :=
  decide (48 ≤ c.toNat ∧ c.toNat ≤ 57)

namespace IntegerParser

/-- `IntegerParser::has_next`: the regex `^(\+|-|)([0-9]+)$`. -/
def has_next (buffer : String) : Bool :=
  match buffer.toList with
  | [] => false
  | c :: rest =>
    if c = '+' ∨ c = '-' then !rest.isEmpty && rest.all isAsciiDigit
    else (c :: rest).all isAsciiDigit

/-- The digit-accumulation loop of `IntegerParser::parse`: `number` starts
at 0 and is multiplied by 10 (`checked_mul`) and incremented by the digit
(`checked_add`) with `i32` overflow checks; `number` never goes negative,
so the checks are the comparisons against `i32::MAX = 2147483647`. -/
def accumulate : List Char → Int → Except ParserError Int
  | [], number => .ok number
  | c :: rest, number =>
    let digit : Int := (c.toNat : Int) - 48
    if number * 10 > 2147483647 then .error .IntegerOverflow
    else if number * 10 + digit > 2147483647 then .error .IntegerOverflow
    else accumulate rest (number * 10 + digit)

/-- The sign/number capture split of `IntegerParser::parse`'s regex
match: a leading `-` capture means sign `-1`, anything else sign `1`,
and the digit capture is the remainder. -/
def sign_split : List Char → Int × List Char
  | '-' :: rest => (-1, rest)
  | '+' :: rest => (1, rest)
  | l => (1, l)

/-- `IntegerParser::parse`: split the optional sign off the regex match,
accumulate the digits, and return `number * sign`. -/
def parse (buffer : String) : Except ParserError Value :=
  let signDigits : Int × List Char := sign_split buffer.toList
  match accumulate signDigits.2 0 with
  | .error e => .error e
  | .ok number => .ok (.Integer (number * signDigits.1))

end IntegerParser

namespace SpecialParser

/-- `SpecialParser::has_next`: the mappings table has exactly `t` and `nil`. -/
def has_next (buffer : String) : Bool :=
  buffer = "t" ∨ buffer = "nil"

/-- `SpecialParser::parse` (the final branch is unreachable under
`has_next`; Rust unwraps there). -/
def parse (buffer : String) : Except ParserError Value :=
  if buffer = "t" then .ok .T
  else if buffer = "nil" then .ok .Nil
  else .error (.MalformedInput "Not a special token")

end SpecialParser

namespace StringParser

/-- `StringParser::has_next`: length at least 2, first and last char `"`. -/
def has_next (buffer : String) : Bool :=
  decide (2 ≤ buffer.length) && buffer.toList.head? == some '"'
    && buffer.toList.getLast? == some '"'

/-- The `escape_sequences` table of `StringParser::parse`. -/
def escape_sequences (c : Char) : Option Char :=
  if c = '"' then some '"'
  else if c = 'n' then some '\n'
  else if c = 't' then some '\t'
  else if c = '\\' then some '\\'
  else none

/-- The character loop of `StringParser::parse` over `buffer[1..]`,
tracking the enumeration index and the escaping flag; `L` is the full
buffer's length (the closing quote must sit at index `L - 2` of the
shortened buffer). -/
def go (L : Nat) : List Char → Nat → Bool → String → Except ParserError Value
  | [], _, _, _ => .error (.MalformedInput "Reached the end of string literal")
  | c :: rest, index, escaping, acc =>
    if escaping then
      match escape_sequences c with
      | some r => go L rest (index + 1) false (acc.push r)
      | none => .error (.InvalidEscapeSequence c)
    else if c = '\\' then go L rest (index + 1) true acc
    else if c = '"' then
      if index = L - 2 then .ok (.String acc)
      else .error (.MalformedInput "String literal closed early")
    else go L rest (index + 1) escaping (acc.push c)

/-- `StringParser::parse`. -/
def parse (buffer : String) : Except ParserError Value :=
  go buffer.length (buffer.drop 1).toList 0 false ""

end StringParser

/-- The symbol character class of `SymbolParser`'s regex (letters, digits,
and the ranges `!`, `#` to `&`, `*` to `/`, `:` to `@`, plus `^`, `_`, the
backtick, `~`, `|`), written out by ASCII code. -/
def isSymbolChar (c : Char) : Bool :=
  let n := c.toNat
  decide ((97 ≤ n ∧ n ≤ 122) ∨ (65 ≤ n ∧ n ≤ 90) ∨ (48 ≤ n ∧ n ≤ 57)
    ∨ n = 33 ∨ (35 ≤ n ∧ n ≤ 38) ∨ (42 ≤ n ∧ n ≤ 47) ∨ (58 ≤ n ∧ n ≤ 64)
    ∨ n = 94 ∨ n = 95 ∨ n = 96 ∨ n = 126 ∨ n = 124)

namespace SymbolParser

/-- `SymbolParser::has_next`: the regex `^('?)([class]+)$` — an optional
single-quote marker, then one or more symbol characters. -/
def has_next (buffer : String) : Bool :=
  match buffer.toList with
  | [] => false
  | c :: rest =>
    if c = '\'' then !rest.isEmpty && rest.all isSymbolChar
    else (c :: rest).all isSymbolChar

/-- `SymbolParser::parse`: `Symbol::from_str` on the name capture, and
`quoted` records whether the quote marker was present (the empty-buffer
branch is unreachable under `has_next`; Rust unwraps the captures). -/
def parse (buffer : String) : Except ParserError Value :=
  match buffer.toList with
  | c :: rest =>
    if c = '\'' then .ok (.Symbol (Crisp.Symbol.from_str (String.mk rest)) true)
    else .ok (.Symbol (Crisp.Symbol.from_str buffer) false)
  | [] => .error (.MalformedInput "Illegal characters in symbol name")

end SymbolParser

namespace BracketParser

/-- The balance scan of `BracketParser::has_next`: Rust pushes the expected
closer on a `Vec` and pops from its back; the embedding keeps the stack
top at the list's head. A closer that does not match the popped expectation
(including popping an empty stack) fails. -/
def balanced : List Char → List Char → Bool
  | [], matching => matching.isEmpty
  | c :: rest, matching =>
    if c = '(' then balanced rest (')' :: matching)
    else if c = '[' then balanced rest (']' :: matching)
    else if c = ')' ∨ c = ']' then
      match matching with
      | m :: ms => if c = m then balanced rest ms else false
      | [] => false
    else balanced rest matching

/-- `BracketParser::has_next`: at least 2 characters, the first an opening
bracket, and the whole buffer balanced (the distinct Rust error values are
discarded by the top-level `parse` loop, so a boolean suffices). -/
def has_next (buffer : String) : Bool :=
  if buffer.length < 2 then false
  else match buffer.toList with
    | c :: _ => if c = '(' ∨ c = '[' then balanced buffer.toList [] else false
    | [] => false

/-- The separator set of `BracketParser::parse`'s element loop. -/
def isSeparator (c : Char) : Bool :=
  c == ' ' || c == '\t' || c == '\n' || c == '\r' || c == ')' || c == ']'

/-- The element-splitting loop of `BracketParser::parse` over the buffer
with its opening bracket stripped: separators flush the accumulated
`element` through a recursive `parse` call (`p`); an element answering
`NoMatchingParser` keeps accumulating (reassembly of pieces that only
parse with more context); any other parse error aborts. `p` returning
`none` is the embedding's out-of-fuel signal. -/
def bracketSplit (p : String → Option (Except ParserError Value)) :
    List Char → String → List Value → Option (Except ParserError (List Value))
  | [], _, elements => some (.ok elements)
  | c :: cs, element, elements =>
    if isSeparator c then
      if element.isEmpty then bracketSplit p cs "" elements
      else
        match p element with
        | some (.ok value) => bracketSplit p cs "" (elements ++ [value])
        | some (.error .NoMatchingParser) => bracketSplit p cs (element.push c) elements
        | some (.error e) => some (.error e)
        | none => none
    else bracketSplit p cs (element.push c) elements

/-- `BracketParser::parse`: split the elements, then dispatch on the final
character of the bracket-stripped buffer: `)` demands a nonempty element
list headed by an unquoted symbol (→ `Funcall`), else the empty-call or
invalid-call error; any other closer yields a literal `List`. -/
def parse (p : String → Option (Except ParserError Value)) (buffer : String) :
    Option (Except ParserError Value) :=
  let buffer1 := buffer.drop 1
  match bracketSplit p buffer1.toList "" [] with
  | none => none
  | some (.error e) => some (.error e)
  | some (.ok elements) =>
    if buffer1.toList.getLast? = some ')' then
      if elements.isEmpty then some (.error .EmptyFuncall)
      else
        match elements.head? with
        | some (.Symbol symbol quoted) =>
          if !quoted then some (.ok (.Funcall symbol (elements.drop 1)))
          else some (.error .InvalidFuncall)
        | _ => some (.error .InvalidFuncall)
    else some (.ok (.List elements))

end BracketParser

/-- One step of the top-level `parse` of `parsers.rs`: the recognizers are
tried in their fixed priority order, the first whose `has_next` accepts
wins (the `has_next` error values are discarded), else `NoMatchingParser`;
`p` is the recursive parser handed to `BracketParser`. -/
def parseBody (p : String → Option (Except ParserError Value)) (buffer : String) :
    Option (Except ParserError Value) :=
  if IntegerParser.has_next buffer then some (IntegerParser.parse buffer)
  else if SpecialParser.has_next buffer then some (SpecialParser.parse buffer)
  else if StringParser.has_next buffer then some (StringParser.parse buffer)
  else if SymbolParser.has_next buffer then some (SymbolParser.parse buffer)
  else if BracketParser.has_next buffer then BracketParser.parse p buffer
  else some (.error .NoMatchingParser)

/-- `parse` of `parsers.rs`, with the embedding's fuel bound on the
recursion depth through nested bracketed forms (`none` = fuel ran out;
any buffer parses with fuel exceeding its length). -/
def parse : Nat → String → Option (Except ParserError Value)
  | 0, _ => none
  | fuel + 1, buffer => parseBody (parse fuel) buffer

end Parsers

namespace Crisp

/-- The value model of `crisp.rs` (`enum Value`); `Integer` (Rust `i32`)
is carried as `Int` with explicit 32-bit wrapping in the arithmetic
builtins. -/
inductive Value where
  | Nil
  | T
  | Integer (i : Int)
  | String (s : String)
  | Symbol (symbol : Crisp.Symbol)
  | Funcall (symbol : Crisp.Symbol) (args : List Value)
  | List (elements : List Value)

mutual

/-- Structural equality on values, mirroring the manual
`impl PartialEq for Value` of `crisp.rs` (nested matches, `false` on a
constructor mismatch; symbols compare name, quote mode and rest flag). -/
def beqValue : Value → Value → Bool
  | .Nil, other => match other with | .Nil => true | _ => false
  | .T, other => match other with | .T => true | _ => false
  | .Integer i, other => match other with | .Integer j => i == j | _ => false
  | .String s1, other => match other with | .String s2 => s1 == s2 | _ => false
  | .Symbol s1, other => match other with | .Symbol s2 => s1 == s2 | _ => false
  | .Funcall car cdr, other =>
    match other with
    | .Funcall fn args => car == fn && beqValueList cdr args
    | _ => false
  | .List v1, other => match other with | .List v2 => beqValueList v1 v2 | _ => false

/-- Element-wise equality of value lists (Rust `Vec<Value> == Vec<Value>`). -/
def beqValueList : List Value → List Value → Bool
  | [], [] => true
  | x :: xs, y :: ys => beqValue x y && beqValueList xs ys
  | _, _ => false

end

def quoteDebugFmt : Quote → String
  | .None => "None"
  | .Single => "Single"
  | .Eval => "Eval"

def symbolDebugFmt (s : Symbol) : String :=
  "Symbol \x7b name: \"" ++ s.name ++ "\", quote: " ++ quoteDebugFmt s.quote
    ++ ", rest: " ++ (if s.rest then "true" else "false") ++ " \x7d"

mutual

/-- The derived `Debug` rendering of a value (used by `reduce`'s
conversion-failure message via `format!("{:?}", …)`); string contents are
not re-escaped, which no claim depends on. -/
def debugFmt : Value → String
  | .Nil => "Nil"
  | .T => "T"
  | .Integer i => "Integer(" ++ toString i ++ ")"
  | .String s => "String(\"" ++ s ++ "\")"
  | .Symbol s => "Symbol(" ++ symbolDebugFmt s ++ ")"
  | .Funcall s args => "Funcall(" ++ symbolDebugFmt s ++ ", [" ++ debugFmtList args ++ "])"
  | .List elements => "List([" ++ debugFmtList elements ++ "])"

def debugFmtList : List Value → String
  | [] => ""
  | [v] => debugFmt v
  | v :: rest => debugFmt v ++ ", " ++ debugFmtList rest

end

/-- Evaluation errors, from `crisp.rs` (`enum EvalError`); the
`std::io::Error` payload of `FailedToReadFile` is carried as its display
string (file I/O is outside the embedded fragment). -/
inductive EvalError where
  | ArgsMismatch (msg : String)
  | SomethingWentWrong
  | VariableIsVoid (name : String)
  | FunctionDefinitionIsVoid (name : String)
  | FailedToParse (e : Parsers.ParserError)
  | FailedToReadFile (name : String) (cause : String)
deriving DecidableEq, Repr

/-- The names of the 15 native operations `builtins.rs` registers; the
Rust `Builtin` function pointers become this closed enum plus the
`runBuiltin` dispatcher. -/
inductive BuiltinName where
  | progn
  | debug
  | if_
  | while_
  | set
  | let_
  | eq
  | neq
  | add
  | sub
  | mul
  | div
  | car
  | cdr
  | defun
deriving DecidableEq, Repr

/-- `struct Defun`: a body and the ordered parameter descriptors. -/
structure Defun where
  body : Value
  takes : List Symbol

/-- `enum Function`: a native operation or a user definition. -/
inductive Function where
  | Builtin (name : BuiltinName)
  | Defun (d : Crisp.Defun)

def Function.new_defun (body : Value) (takes : List Symbol) : Function :=
  .Defun ⟨body, takes⟩

def Function.new_builtin (name : BuiltinName) : Function :=
  .Builtin name

/-- `struct Closure`: one frame — a caller label and a name-keyed scope
(`HashMap<String, Value>` as an association list, newest entry first). -/
structure Closure where
  caller : String
  scope : List (String × Value)

def Closure.new (caller : String) : Closure :=
  ⟨caller, []⟩

/-- `Closure::put`: keyed by the symbol's *name* only. -/
def Closure.put (c : Closure) (symbol : Symbol) (value : Value) : Closure :=
  { c with scope := (symbol.name, value) :: c.scope }

/-- `Closure::get`: first entry with the symbol's name. -/
def Closure.get (c : Closure) (symbol : Symbol) : Option Value :=
  c.scope.lookup symbol.name

/-- `Closure::has` (`contains_key`). -/
def Closure.has (c : Closure) (symbol : Symbol) : Bool :=
  (c.get symbol).isSome

/-- `struct Environment`: the frame stack and the global function table.
The Rust `Vec` pushes/pops at its back; the embedding stores the stack
reversed, innermost frame first (so `current` is the head, `top_level`
the last element). The `HashMap<Symbol, Function>` table is an
association list keyed by the full symbol. -/
structure Environment where
  stack : List Closure
  functions_table : List (Crisp.Symbol × Function)

/-- `Environment::new`: one persistent `top-level` frame, empty table. -/
def Environment.new : Environment :=
  ⟨[Closure.new "top-level"], []⟩

/-- `Environment::push_to_stack`. -/
def Environment.push_to_stack (env : Environment) (caller : String) : Environment :=
  { env with stack := Closure.new caller :: env.stack }

/-- `Environment::pop` (its returned closure is always discarded by the
one caller; popping an empty stack leaves it empty, like `Vec::pop`). -/
def Environment.pop (env : Environment) : Environment :=
  { env with stack := env.stack.tail }

/-- `Environment::add_function` (`HashMap::insert`, overwrite-on-rekey
realised as consing, first match winning on lookup). -/
def Environment.add_function (env : Environment) (key : Symbol) (function : Function) :
    Environment :=
  { env with functions_table := (key, function) :: env.functions_table }

/-- `functions_table.get(symbol)`: keyed by the full symbol (name, quote
mode and rest flag). -/
def Environment.get_function (env : Environment) (symbol : Symbol) : Option Function :=
  env.functions_table.lookup symbol

/-- The scan of `Environment::lookup`: innermost frame first. -/
def lookupStack : List Closure → Symbol → Option Value
  | [], _ => none
  | frame :: rest, symbol =>
    match frame.get symbol with
    | some value => some value
    | none => lookupStack rest symbol

/-- `Environment::lookup`. -/
def Environment.lookup (env : Environment) (symbol : Symbol) : Option Value :=
  lookupStack env.stack symbol

/-- `Environment::find_closure` fused with the `put` its callers perform:
update the innermost frame that holds the name; `none` when no frame
does. -/
def putNearest : List Closure → Symbol → Value → Option (List Closure)
  | [], _, _ => none
  | frame :: rest, symbol, value =>
    if frame.has symbol then some (frame.put symbol value :: rest)
    else (putNearest rest symbol value).map (fun st => frame :: st)

/-- `Environment::current().put(…)`: update the innermost frame; `none`
models the `unwrap` abort on an empty stack (unreachable: the stack is
never empty). -/
def Environment.put_current (env : Environment) (symbol : Symbol) (value : Value) :
    Option Environment :=
  match env.stack with
  | frame :: rest => some { env with stack := frame.put symbol value :: rest }
  | [] => none

/-- `Environment::outer().put(…)`: update the frame at index `len - 2`
of the Rust `Vec`, i.e. the second-innermost; `none` models the abort
when fewer than 2 frames are live. -/
def Environment.put_outer (env : Environment) (symbol : Symbol) (value : Value) :
    Option Environment :=
  match env.stack with
  | frame :: next :: rest => some { env with stack := frame :: next.put symbol value :: rest }
  | _ => none

/-- The `put` into `Environment::top_level()` (the Rust `Vec`'s first
frame = the embedding's last); `none` models the abort on an empty
stack. -/
def putLastFrame : List Closure → Symbol → Value → Option (List Closure)
  | [], _, _ => none
  | [frame], symbol, value => some [frame.put symbol value]
  | frame :: rest, symbol, value => (putLastFrame rest symbol value).map (fun st => frame :: st)

def Environment.put_top_level (env : Environment) (symbol : Symbol) (value : Value) :
    Option Environment :=
  (putLastFrame env.stack symbol value).map (fun st => { env with stack := st })

/-- The outcome of one embedded evaluation step: a Rust `EvalResult`
together with the mutated environment (also on the error path), a Rust
process abort (`panicked`), or fuel exhaustion (`timeout`). -/
inductive Out (α : Type) where
  | res (r : Except EvalError α) (env : Environment)
  | panicked
  | timeout

/-- The `?` operator: continue on `Ok` with the current environment,
short-circuit an `Err` (keeping the environment mutated so far), and
propagate aborts and fuel exhaustion. -/
def Out.bind {α β : Type} (o : Out α) (f : α → Environment → Out β) : Out β :=
  match o with
  | .res (.ok a) env => f a env
  | .res (.error e) env => .res (.error e) env
  | .panicked => .panicked
  | .timeout => .timeout

/-- The result component of an outcome, when one was produced. -/
def Out.result? {α : Type} : Out α → Option (Except EvalError α)
  | .res r _ => some r
  | _ => none

/-- The environment component of an outcome, when one was produced. -/
def Out.env? {α : Type} : Out α → Option Environment
  | .res _ env => some env
  | _ => none

/-- The evaluator knot: builtins receive the recursive evaluator as an
explicit parameter (open recursion), tied by `Value.eval` below. -/
abbrev Ev := Value → Environment → Out Value

/-- `mismatch` of `builtins.rs`: an `ArgsMismatch` whose message cites
`environment.current().caller` (abort when no frame is live —
unreachable, `call` always pushes one first). -/
def mismatch {α : Type} (environment : Environment) (reason : String) : Out α :=
  match environment.stack.head? with
  | some frame => .res (.error (.ArgsMismatch ("`" ++ frame.caller ++ "': " ++ reason))) environment
  | none => .panicked

/-- `is_nil` of `builtins.rs`: `Nil`, the empty list and the empty string
are nil-equivalent, nothing else. -/
def is_nil (value : Value) : Bool :=
  match value with
  | .Nil => true
  | .List elements => elements.isEmpty
  | .String string => string.isEmpty
  | _ => false

/-- `make_progn` of `builtins.rs`. -/
def make_progn (args : List Value) : Value :=
  .Funcall (Symbol.from_str "progn") args

/-- `to_integer` of `builtins.rs`. -/
def to_integer : Value → Option Int
  | .Integer i => some i
  | _ => none

/-- Two's-complement wraparound to `i32`, the release-profile semantics
of the arithmetic closures (no claim exercises the wrapping case). -/
def wrap32 (z : Int) : Int :=
  (z + 2147483648) % 4294967296 - 2147483648

/-- Rust `i32` division `x / y` (truncating): aborts on a zero divisor
and on `i32::MIN / -1`, in every build profile — there is no checked
variant in `div`'s reduction closure. -/
def i32_div (x y : Int) : Option Int :=
  if y = 0 then none
  else if x = -2147483648 ∧ y = -1 then none
  else some (Int.tdiv x y)

/-- `some_args` of `builtins.rs`. -/
def some_args (environment : Environment) (args : List Value) : Out (List Value) :=
  if args.length = 0 then mismatch environment "This function takes one or more args"
  else .res (.ok args) environment

/-- The `for` loop of `reduce`: evaluate each argument, convert it, and
fold with `operation` (an `operation` answering `none` is the embedded
arithmetic abort, e.g. division by zero). -/
def reduceGo {T : Type} (ev : Ev) (conversion : Value → Option T)
    (operation : T → T → Option T) : List Value → T → Environment → Out T
  | [], starting, env => .res (.ok starting) env
  | value :: rest, starting, env =>
    (ev value env).bind fun v env' =>
      match conversion v with
      | some converted =>
        match operation starting converted with
        | some next => reduceGo ev conversion operation rest next env'
        | none => .panicked
      | none => mismatch env' ("Couldn't convert argument " ++ debugFmt value)

/-- `reduce` of `builtins.rs`: evaluate and convert the starting value,
then fold the remaining arguments. -/
def reduce {T : Type} (ev : Ev) (environment : Environment) (starting : Value)
    (args : List Value) (conversion : Value → Option T) (operation : T → T → Option T) :
    Out T :=
  (ev starting environment).bind fun sv env' =>
    match conversion sv with
    | some s0 => reduceGo ev conversion operation args s0 env'
    | none => mismatch env' "Couldn't convert the starting value"

/-- `reduce_car_cdr` of `builtins.rs`: the first argument seeds the fold,
the rest are folded over it. -/
def reduce_car_cdr {T : Type} (ev : Ev) (environment : Environment) (args : List Value)
    (conversion : Value → Option T) (operation : T → T → Option T) : Out T :=
  match args.head? with
  | none => mismatch environment "No car in the list"
  | some car => reduce ev environment car (args.drop 1) conversion operation

/-- `list_arg` of `builtins.rs`. -/
def list_arg (ev : Ev) (environment : Environment) (args : List Value) : Out Value :=
  if args.length = 1 then
    (ev (args.headD .Nil) environment).bind fun value env' =>
      match value with
      | .List _ => .res (.ok value) env'
      | _ => mismatch env' "This function takes a list"
  else mismatch environment "This function takes exactly one list argument"

/-- The loop of `progn` over all arguments but the last, for effect. -/
def prognButLast (ev : Ev) : List Value → Environment → Out Unit
  | [], env => .res (.ok ()) env
  | arg :: rest, env => (ev arg env).bind fun _ env' => prognButLast ev rest env'

/-- `progn` of `builtins.rs`: evaluate all arguments in order, return the
last one's value (`Nil` when there are none). -/
def progn (ev : Ev) (environment : Environment) (args : List Value) : Out Value :=
  if args.isEmpty then .res (.ok .Nil) environment
  else
    (prognButLast ev args.dropLast environment).bind fun _ env' =>
      ev (args.getLastD .Nil) env'

/-- The loop of `debug`, tracking the last evaluated value (the
`println!` side effect is outside the embedding; the value flow is
kept). -/
def debugGo (ev : Ev) : List Value → Value → Environment → Out Value
  | [], last, env => .res (.ok last) env
  | arg :: rest, _, env => (ev arg env).bind fun v env' => debugGo ev rest v env'

/-- `debug` of `builtins.rs`. -/
def debug (ev : Ev) (environment : Environment) (args : List Value) : Out Value :=
  if args.isEmpty then .res (.ok .Nil) environment
  else debugGo ev args (args.headD .Nil) environment

/-- `if_` of `builtins.rs`: evaluate the condition, test it with
`is_nil`, then either evaluate only the then-branch or hand the
remaining forms to `progn`. -/
def if_ (ev : Ev) (environment : Environment) (args : List Value) : Out Value :=
  match args.head? with
  | none => mismatch environment "This function takes a condition"
  | some cond =>
    (ev cond environment).bind fun v env' =>
      let condition := !(is_nil v)
      match args.get? 1 with
      | none => mismatch env' "This function takes a 'when' parameter"
      | some if_true =>
        if condition then ev if_true env'
        else progn ev env' (args.drop 2)

/-- The `loop` of `while_`, bounded by the embedding's fuel: re-evaluate
the condition, stop with `Nil` once it is nil-equivalent, else evaluate
the body (an implicit `progn`) for effect and iterate. -/
def whileGo (ev : Ev) : Nat → Environment → List Value → Out Value
  | 0, _, _ => .timeout
  | fuel + 1, env, args =>
    let condition := args.headD .Nil
    let action := make_progn (args.drop 1)
    (ev condition env).bind fun v env' =>
      if is_nil v then .res (.ok .Nil) env'
      else (ev action env').bind fun _ env'' => whileGo ev fuel env'' args

/-- `while_` of `builtins.rs`. -/
def while_ (ev : Ev) (fuel : Nat) (environment : Environment) (args : List Value) : Out Value :=
  if args.length < 2 then
    mismatch environment "This function takes a condition and loop body"
  else whileGo ev fuel environment args

/-- `symbol_binding` of `builtins.rs`: evaluate the symbol argument,
demand a symbol, then evaluate the value argument. -/
def symbol_binding (ev : Ev) (environment : Environment) (symbol value : Value) :
    Out (Symbol × Value) :=
  (ev symbol environment).bind fun sv env' =>
    match sv with
    | .Symbol s => (ev value env').bind fun v env'' => .res (.ok (s, v)) env''
    | _ => mismatch env' "First argument must be a symbol"

/-- `symbol_binding_argslist` of `builtins.rs`. -/
def symbol_binding_argslist (ev : Ev) (environment : Environment) (args : List Value) :
    Out (Symbol × Value) :=
  if args.length ≠ 2 then mismatch environment "This function takes a symbol and its value"
  else symbol_binding ev environment (args.headD .Nil) (args.getLastD .Nil)

/-- `set` of `builtins.rs`: mutate the nearest existing binding, else
create one in the top-level frame. -/
def set (ev : Ev) (environment : Environment) (args : List Value) : Out Value :=
  (symbol_binding_argslist ev environment args).bind fun sv env' =>
    match putNearest env'.stack sv.1 sv.2 with
    | some st => .res (.ok sv.2) { env' with stack := st }
    | none =>
      match env'.put_top_level sv.1 sv.2 with
      | some env'' => .res (.ok sv.2) env''
      | none => .panicked

/-- `let_` of `builtins.rs`: bind into `environment.outer()` — one frame
below the current one (abort when fewer than 2 frames are live). -/
def let_ (ev : Ev) (environment : Environment) (args : List Value) : Out Value :=
  (symbol_binding_argslist ev environment args).bind fun sv env' =>
    match env'.put_outer sv.1 sv.2 with
    | some env'' => .res (.ok sv.2) env''
    | none => .panicked

/-- `eq` of `builtins.rs`: a `reduce_car_cdr` whose operation compares
with `Value`'s structural equality, yielding `T` or `Nil`. -/
def eq (ev : Ev) (environment : Environment) (args : List Value) : Out Value :=
  reduce_car_cdr ev environment args (fun x => some x)
    (fun x y => some (if beqValue x y then .T else .Nil))

/-- `neq` of `builtins.rs`: `eq` with the answer flipped. -/
def neq (ev : Ev) (environment : Environment) (args : List Value) : Out Value :=
  (eq ev environment args).bind fun v env' =>
    match v with
    | .T => .res (.ok .Nil) env'
    | _ => .res (.ok .T) env'

/-- `add` of `builtins.rs`. -/
def add (ev : Ev) (environment : Environment) (args : List Value) : Out Value :=
  (some_args environment args).bind fun args' env' =>
    (reduce ev env' (.Integer 0) args' to_integer
        (fun x y => some (wrap32 (x + y)))).bind fun n env'' =>
      .res (.ok (.Integer n)) env''

/-- `sub` of `builtins.rs`: one argument negates (only a syntactic
integer literal — the argument is *not* evaluated first); otherwise a
left fold of subtraction. -/
def sub (ev : Ev) (environment : Environment) (args : List Value) : Out Value :=
  if args.length = 1 then
    match args.headD .Nil with
    | .Integer i => .res (.ok (.Integer (wrap32 (-i)))) environment
    | _ => mismatch environment "This function takes one or more integer values"
  else
    (reduce_car_cdr ev environment args to_integer
        (fun x y => some (wrap32 (x - y)))).bind fun n env' =>
      .res (.ok (.Integer n)) env'

/-- `mul` of `builtins.rs`. -/
def mul (ev : Ev) (environment : Environment) (args : List Value) : Out Value :=
  (some_args environment args).bind fun args' env' =>
    (reduce ev env' (.Integer 1) args' to_integer
        (fun x y => some (wrap32 (x * y)))).bind fun n env'' =>
      .res (.ok (.Integer n)) env''

/-- `div` of `builtins.rs`: a bare `reduce_car_cdr` over `i32` division —
no `some_args` guard and, through `i32_div`, no zero-divisor guard. -/
def div (ev : Ev) (environment : Environment) (args : List Value) : Out Value :=
  (reduce_car_cdr ev environment args to_integer i32_div).bind fun n env' =>
    .res (.ok (.Integer n)) env'

/-- `car` of `builtins.rs`: the (re-)evaluated first element of the list
argument, `Nil` for an empty list. -/
def car (ev : Ev) (environment : Environment) (args : List Value) : Out Value :=
  (list_arg ev environment args).bind fun value env' =>
    match value with
    | .List elements => ev (elements.headD .Nil) env'
    | _ => mismatch env' "This function takes a list"

/-- `cdr` of `builtins.rs`. -/
def cdr (ev : Ev) (environment : Environment) (args : List Value) : Out Value :=
  (list_arg ev environment args).bind fun value env' =>
    match value with
    | .List elements => ev (.List (elements.drop 1)) env'
    | _ => mismatch env' "This function takes a list"

/-- The parameter-descriptor loop of `defun`: every element must be a
symbol, and a rest-marked symbol directly following another rest-marked
symbol (`takes.last()`) is rejected. -/
def defunTakes : List Value → List Symbol → Except String (List Symbol)
  | [], takes => .ok takes
  | arg :: rest, takes =>
    match arg with
    | .Symbol symbol =>
      match takes.getLast? with
      | some next =>
        if symbol.rest && next.rest then .error "Only one rest arg is allowed"
        else defunTakes rest (takes ++ [symbol])
      | none => defunTakes rest (takes ++ [symbol])
    | _ => .error "Args list contains a non-symbol value"

/-- `defun` of `builtins.rs`: name must be a syntactic symbol, the body is
the remaining forms wrapped in `make_progn`, the parameter list is
collected by `defunTakes`, and registration overwrites. -/
def defun (environment : Environment) (args : List Value) : Out Value :=
  if args.length < 2 then
    mismatch environment "This function takes a function name, arg descriptor, and optional body"
  else
    match args.headD .Nil with
    | .Symbol name =>
      let body := make_progn (args.drop 2)
      match args.get? 1 with
      | some (.List args_list) =>
        match defunTakes args_list [] with
        | .error reason => mismatch environment reason
        | .ok takes =>
          .res (.ok .Nil) (environment.add_function name (Function.new_defun body takes))
      | _ => mismatch environment "The second argument must be a list of symbols"
    | _ => mismatch environment "The first argument must be a symbol"

/-- The binding loop of `Function::eval_defun`, in parameter order: a
rest parameter wraps all remaining arguments in a list (evaluated unless
Single-quoted), stores it, and stops (`break`); a non-rest parameter pops
the next argument (missing → the args-mismatch error), evaluates it
unless Single-quoted, and stores it in the current frame. -/
def bindTakes (ev : Ev) : List Symbol → List Value → Environment → Out Unit
  | [], _, env => .res (.ok ()) env
  | symbol :: restTakes, args, env =>
    if symbol.rest then
      (match symbol.quote with
        | .Single => Out.res (.ok (Value.List args)) env
        | _ => ev (Value.List args) env).bind fun value env' =>
        match env'.put_current symbol value with
        | some env'' => .res (.ok ()) env''
        | none => .panicked
    else
      match args with
      | [] => .res (.error (.ArgsMismatch "Not enough args passed to the function")) env
      | arg :: restArgs =>
        (match symbol.quote with
          | .Single => Out.res (.ok arg) env
          | _ => ev arg env).bind fun value env' =>
          match env'.put_current symbol value with
          | some env'' => bindTakes ev restTakes restArgs env''
          | none => .panicked

/-- `Function::eval_defun`: bind the parameters into the already-pushed
frame, then evaluate the body in that same frame. -/
def Function.eval_defun (ev : Ev) (environment : Environment) (d : Crisp.Defun)
    (args : List Value) : Out Value :=
  (bindTakes ev d.takes args environment).bind fun _ env' => ev d.body env'

/-- The dispatcher for `Function::call`'s `Builtin` arm: the Rust
function pointer is applied to `(environment, args)`; here the closed
`BuiltinName` enum selects the embedded builtin (only `while_` needs the
fuel, for its own loop). -/
def runBuiltin (ev : Ev) (fuel : Nat) (name : BuiltinName) (environment : Environment)
    (args : List Value) : Out Value :=
  match name with
  | .progn => progn ev environment args
  | .debug => debug ev environment args
  | .if_ => if_ ev environment args
  | .while_ => while_ ev fuel environment args
  | .set => set ev environment args
  | .let_ => let_ ev environment args
  | .eq => eq ev environment args
  | .neq => neq ev environment args
  | .add => add ev environment args
  | .sub => sub ev environment args
  | .mul => mul ev environment args
  | .div => div ev environment args
  | .car => car ev environment args
  | .cdr => cdr ev environment args
  | .defun => defun environment args

/-- `Function::call`. -/
def Function.call (ev : Ev) (fuel : Nat) (f : Function) (environment : Environment)
    (args : List Value) : Out Value :=
  match f with
  | .Builtin name => runBuiltin ev fuel name environment args
  | .Defun d => Function.eval_defun ev environment d args

/-- `Environment::pop` applied to a produced result, success or error —
the tail of `Environment::call` (a Rust abort unwinds past the pop). -/
def popAfter (o : Out Value) : Out Value :=
  match o with
  | .res r env => .res r env.pop
  | o => o

/-- `Environment::call`: push a frame labelled with the callee's name,
*then* resolve the name in the function table; invoke it, or fail with
`FunctionDefinitionIsVoid`; pop the frame on both exits. -/
def Environment.call (ev : Ev) (fuel : Nat) (environment : Environment) (symbol : Symbol)
    (args : List Value) : Out Value :=
  let env1 := environment.push_to_stack symbol.name
  popAfter
    (match env1.get_function symbol with
      | some f => Function.call ev fuel f env1 args
      | none => .res (.error (.FunctionDefinitionIsVoid symbol.to_string)) env1)

/-- The loop of `Value::eval`'s `List` arm: evaluate every element left
to right, fail-fast. -/
def evalElements (ev : Ev) : List Value → Environment → Out (List Value)
  | [], env => .res (.ok []) env
  | element :: rest, env =>
    (ev element env).bind fun v env' =>
      (evalElements ev rest env').bind fun vs env'' => .res (.ok (v :: vs)) env''

/-- One step of `Value::eval`, with `ev` the evaluator for subterms:
Single-quoted symbols self-quote; other symbols are resolved innermost
frame first (`None` returns the value, `Eval` evaluates it again,
unbound names are `VariableIsVoid`); a `Funcall` is dispatched through
`Environment::call`; a `List` evaluates element-wise; atoms
self-evaluate. -/
def evalBody (ev : Ev) (fuel : Nat) (value : Value) (environment : Environment) : Out Value :=
  match value with
  | .Symbol symbol =>
    match symbol.quote with
    | .Single => .res (.ok value) environment
    | _ =>
      match environment.lookup symbol with
      | some found =>
        match symbol.quote with
        | .None => .res (.ok found) environment
        | .Eval => ev found environment
        | .Single => .res (.error .SomethingWentWrong) environment
      | none => .res (.error (.VariableIsVoid symbol.to_string)) environment
  | .Funcall symbol args => Environment.call ev fuel environment symbol args
  | .List elements =>
    (evalElements ev elements environment).bind fun vs env' => .res (.ok (.List vs)) env'
  | _ => .res (.ok value) environment

/-- `Value::eval`, the tied knot: each recursion level spends one unit of
fuel (the Rust code recurses natively and can diverge through `while`
or recursive `defun`s; `timeout` marks executions the given fuel cannot
finish). -/
def Value.eval : Nat → Value → Environment → Out Value
  | 0, _, _ => .timeout
  | fuel + 1, value, environment => evalBody (Value.eval fuel) fuel value environment

/-- `configure` of `builtins.rs`: register the 15 native operations, in
source order, each keyed by `Symbol::from_str` of its name. -/
def configure (environment : Environment) : Environment :=
  let functions : List (String × BuiltinName) :=
    [("progn", .progn), ("debug", .debug), ("if", .if_), ("while", .while_),
     ("set", .set), ("let", .let_), ("=", .eq), ("/=", .neq), ("+", .add),
     ("-", .sub), ("*", .mul), ("/", .div), ("car", .car), ("cdr", .cdr),
     ("defun", .defun)]
  functions.foldl
    (fun env nf => env.add_function (Symbol.from_str nf.1) (Function.new_builtin nf.2))
    environment

/-- `Environment::new_configured`. -/
def Environment.new_configured : Environment :=
  configure Environment.new

end Crisp

namespace Parsers

/-- Spec-side helper: whether a bracketed form's head element is the kind
that forms a call — an unquoted symbol. -/
def headFormsCall : Value → Bool
  | .Symbol _ quoted => !quoted
  | _ => false

/-- One step of decimal accumulation (`a * 10` plus the digit's value),
shared by the spec-side denotation below and the lemmas about
`IntegerParser.accumulate`. -/
def dstep : Int → Char → Int :=
  fun a c => a * 10 + ((c.toNat : Int) - 48)

/-- Spec-side helper: the value a digit string denotes (the magnitude of
the integer literal, before the sign is applied). -/
def denotedMagnitude (ds : List Char) : Int :=
  ds.foldl dstep 0

end Parsers

namespace Crisp

/-- The caller labels of the live frames, innermost first: the observable
shape of the frame stack (its depth and each frame's label, not the
bindings the frames hold). -/
def Environment.callers (env : Environment) : List String :=
  env.stack.map Closure.caller

/-- An outcome preserves the frame-stack shape relative to `env`: any
produced result (value or error) carries an environment with the same
caller labels. -/
def CallersPres {α : Type} (env : Environment) (o : Out α) : Prop :=
  ∀ r env', o = .res r env' → env'.callers = env.callers

/-- A small witness environment: one top-level frame binding `v` to 3. -/
def wEnv : Environment :=
  ⟨[⟨"top-level", [("v", .Integer 3)]⟩], []⟩

/-- A one-parameter (non-rest) user function, witness data for the
argument-binding theorems. -/
def wDefun : Crisp.Defun :=
  ⟨make_progn [.Symbol (Symbol.from_str "n")], [Symbol.from_str "n"]⟩

/-- `(progn (defun f [] (let 'x 42)) (f) x)`: define `f` whose body `let`s
`x`, call it, then reference `x` at the caller's level. -/
def letEscapeProg : Value :=
  .Funcall (Symbol.from_str "progn")
    [.Funcall (Symbol.from_str "defun")
      [.Symbol (Symbol.from_str "f"), .List [],
        .Funcall (Symbol.from_str "let") [.Symbol (Symbol.new "x" .Single false), .Integer 42]],
     .Funcall (Symbol.from_str "f") [],
     .Symbol (Symbol.from_str "x")]

/-- `(progn (defun g [] x) (defun f [] (let 'x 7) (g)) (f))`: `f` `let`s
`x` and then calls `g`, whose body references `x`. -/
def letNestedProg : Value :=
  .Funcall (Symbol.from_str "progn")
    [.Funcall (Symbol.from_str "defun")
      [.Symbol (Symbol.from_str "g"), .List [], .Symbol (Symbol.from_str "x")],
     .Funcall (Symbol.from_str "defun")
      [.Symbol (Symbol.from_str "f"), .List [],
        .Funcall (Symbol.from_str "let") [.Symbol (Symbol.new "x" .Single false), .Integer 7],
        .Funcall (Symbol.from_str "g") []],
     .Funcall (Symbol.from_str "f") []]

/-- `(let 'x 1)` evaluated directly at the top level. -/
def letTopProg : Value :=
  .Funcall (Symbol.from_str "let") [.Symbol (Symbol.new "x" .Single false), .Integer 1]

/-- `(/ 1 0)`. -/
def divZeroProg : Value :=
  .Funcall (Symbol.from_str "/") [.Integer 1, .Integer 0]

/-- `(defun f [a... b c...] 1)`: a parameter list with two rest-marked
symbols, neither adjacent to the other, the rest-marked `a` not last. -/
def defunTwoRestProg : Value :=
  .Funcall (Symbol.from_str "defun")
    [.Symbol (Symbol.from_str "f"),
     .List [.Symbol (Symbol.new "a" .None true), .Symbol (Symbol.from_str "b"),
            .Symbol (Symbol.new "c" .None true)],
     .Integer 1]

/-- `(defun buggy [a... b...])`: two adjacent rest-marked parameters. -/
def defunAdjacentRestProg : Value :=
  .Funcall (Symbol.from_str "defun")
    [.Symbol (Symbol.from_str "buggy"),
     .List [.Symbol (Symbol.new "a" .None true), .Symbol (Symbol.new "b" .None true)]]

end Crisp

namespace Parsers

theorem parse_succ (fuel : Nat) (buffer : String) :
    parse (fuel + 1) buffer = parseBody (parse fuel) buffer := rfl

/-- C5 (code_bug): the symbol recognizer in `parsers.rs` has no Eval
marker and no rest marker: `,bye` — which the test suite
(`tests::symbol`) expects to be the symbol `bye` with quote-mode Eval —
parses as an *unquoted* symbol literally named `,bye` (the comma falls in
the allowed character class), and `'actually-no...` — expected to be a
Single-quoted rest-marked `actually-no` — parses as a symbol named
`actually-no...` with rest unset. -/
theorem symbol_marker_code_bug :
    parse 1 ",bye"
      = some (.ok (.Symbol (Crisp.Symbol.new ",bye" .None false) false))
    ∧ parse 1 "'actually-no..."
      = some (.ok (.Symbol (Crisp.Symbol.new "actually-no..." .None false) true)) :=
  ⟨rfl, rfl⟩

/-- C6 (counterexample): the literal `-2147483648` denotes `-2^31`, which
lies inside the 32-bit signed range, yet `parse` answers
`IntegerOverflow` (the magnitude is checked against `2^31 - 1` before
the sign is applied), contradicting the claim that every in-range
literal parses to its value. -/
theorem integer_min_literal_overflows :
    parse 1 "-2147483648" = some (.error .IntegerOverflow)
    ∧ -(2 ^ 31 : Int) ≤ -2147483648 ∧ (-2147483648 : Int) ≤ 2 ^ 31 - 1 :=
  ⟨rfl, by decide, by decide⟩

end Parsers

namespace Crisp

theorem Value.eval_succ (fuel : Nat) (value : Value) (environment : Environment) :
    Value.eval (fuel + 1) value environment
      = evalBody (Value.eval fuel) fuel value environment := rfl

/-- C3 (code_bug): `defun`'s validation only rejects *adjacent* pairs of
rest-marked parameters: `(defun f [a... b c...] 1)` — two rest parameters,
the first not last — is accepted and registers `f` with that parameter
list (first conjunct), while the adjacent pair `[a... b...]` of the test
suite is rejected with the definition-time error (second conjunct). -/
theorem defun_rest_validation_code_bug :
    Value.eval 5 defunTwoRestProg Environment.new_configured
      = .res (.ok .Nil)
          (Environment.new_configured.add_function (Symbol.from_str "f")
            (Function.new_defun (make_progn [.Integer 1])
              [Symbol.new "a" .None true, Symbol.from_str "b", Symbol.new "c" .None true]))
    ∧ Value.eval 5 defunAdjacentRestProg Environment.new_configured
      = .res (.error (.ArgsMismatch "`defun': Only one rest arg is allowed"))
          Environment.new_configured :=
  ⟨rfl, rfl⟩

/-- C10 (confirmed): `(/ 1 0)` aborts the process — for every sufficient
fuel the outcome is `panicked`, neither an `Ok` value nor an `Err`
`EvalError`: the zero-divisor case of `div`'s reduction closure is
unguarded. -/
theorem div_by_zero_panics (n : Nat) :
    Value.eval (n + 2) divZeroProg Environment.new_configured = .panicked := rfl

/-- Witness for `div_by_zero_panics` at fuel 2. -/
theorem div_by_zero_panics_witness :
    Value.eval 2 divZeroProg Environment.new_configured = .panicked :=
  div_by_zero_panics 0

/-- C1 (counterexample): in `(progn (defun f [] (let 'x 42)) (f) x)` the
binding made by the `let` inside `f`'s body is *not* inserted into the
frame of `f`'s caller and is gone once `f` returns: the final reference
to `x` fails with `VariableIsVoid` (the claim predicts `x` = 42 there).
Conversely `(progn (defun g [] x) (defun f [] (let 'x 7) (g)) (f))`
yields 7: the binding *is* visible to the fresh nested call `(g)`
through the innermost-to-outermost scan (the claim predicts it is
invisible there). -/
theorem let_binding_not_in_function_callers_frame :
    (Value.eval 30 letEscapeProg Environment.new_configured).result?
      = some (.error (.VariableIsVoid "x"))
    ∧ (Value.eval 40 letNestedProg Environment.new_configured).result?
      = some (.ok (.Integer 7)) :=
  ⟨rfl, rfl⟩

/-- C8 (counterexample): a call can mutate the frames that survive it, so
the frame stack after a call is not equal to the frame stack before it:
`(let 'x 1)` at the top level returns with the top-level frame now
holding `x` — a different stack (same depth and labels, different
contents). -/
theorem call_mutates_caller_frame :
    Value.eval 10 letTopProg Environment.new_configured
      = .res (.ok (.Integer 1))
          { Environment.new_configured with
            stack := [⟨"top-level", [("x", .Integer 1)]⟩] }
    ∧ ({ Environment.new_configured with
          stack := [⟨"top-level", [("x", .Integer 1)]⟩] } : Environment).stack
        ≠ Environment.new_configured.stack :=
  ⟨rfl, fun h =>
    absurd (congrArg (fun st => (st.headD (Closure.new "")).scope.length) h) (by decide)⟩

end Crisp

namespace Crisp

/-- C2 (confirmed): the quoting algebra of symbol references. A
Single-quoted symbol evaluates to itself, unevaluated; an unquoted
(quote-mode None) symbol bound to `V` evaluates to `V`; an Eval-quoted
symbol bound to `V` evaluates to the evaluation of `V`; and an unquoted
or Eval-quoted symbol bound in no frame fails with `VariableIsVoid`. -/
theorem symbol_quoting_algebra :
    (∀ (fuel : Nat) (env : Environment) (name : String) (r : Bool),
      Value.eval (fuel + 1) (.Symbol ⟨name, .Single, r⟩) env
        = .res (.ok (.Symbol ⟨name, .Single, r⟩)) env)
    ∧ (∀ (fuel : Nat) (env : Environment) (name : String) (r : Bool) (V : Value),
      env.lookup ⟨name, .None, r⟩ = some V →
      Value.eval (fuel + 1) (.Symbol ⟨name, .None, r⟩) env = .res (.ok V) env)
    ∧ (∀ (fuel : Nat) (env : Environment) (name : String) (r : Bool) (V : Value),
      env.lookup ⟨name, .Eval, r⟩ = some V →
      Value.eval (fuel + 1) (.Symbol ⟨name, .Eval, r⟩) env = Value.eval fuel V env)
    ∧ (∀ (fuel : Nat) (env : Environment) (name : String) (r : Bool),
      env.lookup ⟨name, .None, r⟩ = none →
      Value.eval (fuel + 1) (.Symbol ⟨name, .None, r⟩) env
        = .res (.error (.VariableIsVoid name)) env)
    ∧ (∀ (fuel : Nat) (env : Environment) (name : String) (r : Bool),
      env.lookup ⟨name, .Eval, r⟩ = none →
      Value.eval (fuel + 1) (.Symbol ⟨name, .Eval, r⟩) env
        = .res (.error (.VariableIsVoid name)) env) := by
  refine ⟨fun fuel env name r => rfl, fun fuel env name r V h => ?_,
    fun fuel env name r V h => ?_, fun fuel env name r h => ?_, fun fuel env name r h => ?_⟩
    <;> simp [Value.eval, evalBody, h, Symbol.to_string]

/-- Witness for `symbol_quoting_algebra`: each conjunct applied in `wEnv`
(where `v` is bound to 3 and `u` is unbound). -/
theorem symbol_quoting_algebra_witness :
    Value.eval 1 (.Symbol ⟨"v", .Single, false⟩) wEnv
      = .res (.ok (.Symbol ⟨"v", .Single, false⟩)) wEnv
    ∧ Value.eval 1 (.Symbol ⟨"v", .None, false⟩) wEnv = .res (.ok (.Integer 3)) wEnv
    ∧ Value.eval 2 (.Symbol ⟨"v", .Eval, false⟩) wEnv = Value.eval 1 (.Integer 3) wEnv
    ∧ Value.eval 1 (.Symbol ⟨"u", .None, false⟩) wEnv
      = .res (.error (.VariableIsVoid "u")) wEnv
    ∧ Value.eval 1 (.Symbol ⟨"u", .Eval, false⟩) wEnv
      = .res (.error (.VariableIsVoid "u")) wEnv :=
  ⟨symbol_quoting_algebra.1 0 wEnv "v" false,
   symbol_quoting_algebra.2.1 0 wEnv "v" false (.Integer 3) rfl,
   symbol_quoting_algebra.2.2.1 1 wEnv "v" false (.Integer 3) rfl,
   symbol_quoting_algebra.2.2.2.1 0 wEnv "u" false rfl,
   symbol_quoting_algebra.2.2.2.2 0 wEnv "u" false rfl⟩

/-- C7 (confirmed): `is_nil` holds exactly for `Nil`, the empty list and
the empty string — `Integer 0` and everything else are truthy — and an
`if` whose condition evaluates to `v` evaluates only the then-branch
when `v` is truthy, and hands the remaining forms to `progn` when `v`
is nil-equivalent. -/
theorem if_truthiness :
    (∀ v : Value, is_nil v = true ↔ v = .Nil ∨ v = .List [] ∨ v = .String "")
    ∧ (∀ (ev : Ev) (env env₁ : Environment) (c t : Value) (rest : List Value) (v : Value),
      ev c env = .res (.ok v) env₁ →
      if_ ev env (c :: t :: rest)
        = if is_nil v then progn ev env₁ rest else ev t env₁) := by
  constructor
  · intro v
    cases v <;> simp [is_nil, String.isEmpty_iff]
  · intro ev env env₁ c t rest v h
    simp only [if_, List.head?, List.get?, Out.bind, h, List.drop]
    cases hn : is_nil v <;> simp [hn]

/-- Witness for `if_truthiness`: `Integer 0` is not nil-equivalent, and
an `if` with the literal `Nil` condition dispatches to the `progn` of
the else-forms. -/
theorem if_truthiness_witness :
    (is_nil (.Integer 0) = true ↔ (.Integer 0 : Value) = .Nil
      ∨ (.Integer 0 : Value) = .List [] ∨ (.Integer 0 : Value) = .String "")
    ∧ if_ (Value.eval 1) wEnv (.Nil :: .Integer 1 :: [.Integer 2])
      = if is_nil .Nil then progn (Value.eval 1) wEnv [.Integer 2]
        else Value.eval 1 (.Integer 1) wEnv :=
  ⟨if_truthiness.1 (.Integer 0),
   if_truthiness.2 (Value.eval 1) wEnv wEnv .Nil (.Integer 1) [.Integer 2] .Nil rfl⟩

end Crisp

namespace Crisp

/-- For an all-non-rest parameter list with at least as many arguments as
parameters, the binding loop consumes exactly one argument per parameter
and never touches the surplus: binding against `args` equals binding
against its first `takes.length` entries. -/
theorem bindTakes_nonrest_take (ev : Ev) :
    ∀ (takes : List Symbol) (args : List Value) (env : Environment),
      takes.all (fun s => !s.rest) = true → takes.length ≤ args.length →
      bindTakes ev takes args env = bindTakes ev takes (args.take takes.length) env := by
  intro takes
  induction takes with
  | nil => intro args env _ _; rfl
  | cons s ts ih =>
    intro args env hall hlen
    simp only [List.all_cons, Bool.and_eq_true, Bool.not_eq_true'] at hall
    obtain ⟨hs, hts⟩ := hall
    cases args with
    | nil => simp at hlen
    | cons a as =>
      simp only [List.length_cons, List.take_succ_cons]
      simp only [bindTakes, hs, Bool.false_eq_true, if_false]
      congr 1
      funext value env'
      cases hp : env'.put_current s value with
      | none => rfl
      | some env'' =>
        simpa using ih as env'' (by simpa using hts) (by simpa using hlen)

/-- C9 (confirmed): a user-defined function with no rest parameter,
called with more arguments than parameters, binds the first arguments in
parameter order and silently discards the surplus — the evaluation
equals the one with the argument list truncated to the parameter count,
so no arity error arises from surplus arguments (first conjunct); the
args-mismatch error arises exactly when the arguments run out while a
non-rest parameter remains (second conjunct). -/
theorem defun_surplus_args_discarded :
    (∀ (ev : Ev) (env : Environment) (d : Crisp.Defun) (args : List Value),
      d.takes.all (fun s => !s.rest) = true →
      d.takes.length ≤ args.length →
      Function.eval_defun ev env d args
        = Function.eval_defun ev env d (args.take d.takes.length))
    ∧ (∀ (ev : Ev) (env : Environment) (s : Symbol) (ts : List Symbol),
      s.rest = false →
      bindTakes ev (s :: ts) [] env
        = .res (.error (.ArgsMismatch "Not enough args passed to the function")) env) := by
  constructor
  · intro ev env d args hall hlen
    simp only [Function.eval_defun, bindTakes_nonrest_take ev d.takes args env hall hlen]
  · intro ev env s ts hs
    simp [bindTakes, hs]

/-- Witness for `defun_surplus_args_discarded`: the one-parameter `wDefun`
called with three arguments equals the call with just the first, and its
parameter list with no arguments yields the args-mismatch error. -/
theorem defun_surplus_args_discarded_witness :
    Function.eval_defun (Value.eval 10) wEnv wDefun [.Integer 1, .Integer 2, .Integer 3]
      = Function.eval_defun (Value.eval 10) wEnv wDefun [.Integer 1]
    ∧ bindTakes (Value.eval 10) [Symbol.from_str "n"] [] wEnv
      = .res (.error (.ArgsMismatch "Not enough args passed to the function")) wEnv :=
  ⟨defun_surplus_args_discarded.1 (Value.eval 10) wEnv wDefun
      [.Integer 1, .Integer 2, .Integer 3] rfl (by decide),
   defun_surplus_args_discarded.2 (Value.eval 10) wEnv (Symbol.from_str "n") [] rfl⟩

end Crisp


namespace Parsers


theorem digit_bounds {c : Char} (h : isAsciiDigit c = true) :
    0 ≤ (c.toNat : Int) - 48 ∧ (c.toNat : Int) - 48 ≤ 9 := by
  simp only [isAsciiDigit, decide_eq_true_eq] at h
  omega

theorem foldl_dstep_ge :
    ∀ (ds : List Char) (n : Int), 0 ≤ n → (∀ c ∈ ds, isAsciiDigit c = true) →
      n ≤ List.foldl dstep n ds := by
  intro ds
  induction ds with
  | nil => intro n _ _; simp
  | cons c cs ih =>
    intro n hn hds
    have hd := digit_bounds (hds c (List.mem_cons_self c cs))
    have hstep : n ≤ dstep n c := by simp only [dstep]; omega
    have h0 : (0 : Int) ≤ dstep n c := by simp only [dstep]; omega
    calc n ≤ dstep n c := hstep
      _ ≤ List.foldl dstep (dstep n c) cs := ih _ h0 (fun x hx => hds x (List.mem_cons_of_mem c hx))
      _ = List.foldl dstep n (c :: cs) := by simp [List.foldl_cons]

theorem accumulate_spec :
    ∀ (ds : List Char) (n : Int), 0 ≤ n → n ≤ 2147483647 →
      (∀ c ∈ ds, isAsciiDigit c = true) →
      IntegerParser.accumulate ds n
        = if List.foldl dstep n ds ≤ 2147483647 then .ok (List.foldl dstep n ds)
          else .error .IntegerOverflow := by
  intro ds
  induction ds with
  | nil =>
    intro n _ hmax _
    simp [IntegerParser.accumulate, hmax]
  | cons c cs ih =>
    intro n hn hmax hds
    have hd := digit_bounds (hds c (List.mem_cons_self c cs))
    have hds' : ∀ x ∈ cs, isAsciiDigit x = true := fun x hx => hds x (List.mem_cons_of_mem c hx)
    have hfold : List.foldl dstep n (c :: cs) = List.foldl dstep (dstep n c) cs := by
      simp [List.foldl_cons]
    by_cases h1 : n * 10 > 2147483647
    · have hge : dstep n c ≤ List.foldl dstep (dstep n c) cs :=
        foldl_dstep_ge cs _ (by simp only [dstep]; omega) hds'
      have hnc : 2147483647 < dstep n c := by simp only [dstep]; omega
      have hnle : ¬ List.foldl dstep (dstep n c) cs ≤ 2147483647 := by omega
      simp only [IntegerParser.accumulate]
      rw [if_pos h1, hfold, if_neg hnle]
    · by_cases h2 : n * 10 + ((c.toNat : Int) - 48) > 2147483647
      · have hge : dstep n c ≤ List.foldl dstep (dstep n c) cs :=
          foldl_dstep_ge cs _ (by simp only [dstep]; omega) hds'
        have hnc : 2147483647 < dstep n c := by simp only [dstep]; omega
        have hnle : ¬ List.foldl dstep (dstep n c) cs ≤ 2147483647 := by omega
        simp only [IntegerParser.accumulate]
        rw [if_neg h1, if_pos h2, hfold, if_neg hnle]
      · have heq := ih (n * 10 + ((c.toNat : Int) - 48)) (by omega) (by omega) hds'
        have hsame : dstep n c = n * 10 + ((c.toNat : Int) - 48) := by simp [dstep]
        simp only [IntegerParser.accumulate]
        rw [if_neg h1, if_neg h2, hfold, hsame, heq]

theorem sign_split_digit (c : Char) (cs : List Char) (h1 : c ≠ '-') (h2 : c ≠ '+') :
    IntegerParser.sign_split (c :: cs) = (1, c :: cs) := by
  unfold IntegerParser.sign_split
  split
  · next heq => injection heq with ha _; exact absurd ha h1
  · next heq => injection heq with ha _; exact absurd ha h2
  · rfl

/-- C6 (corrected): for every integer literal token (optional sign and a
nonempty digit string) the parser returns `Integer` of the denoted value
exactly when the *magnitude* is at most `2^31 - 1`, and the
`IntegerOverflow` parse error otherwise — never a wrapped value. (The
original claim's boundary, the full 32-bit signed range, fails at
`-2147483648`: see `integer_min_literal_overflows` — the magnitude is
checked before the sign is applied, so the range is symmetric.) -/
theorem integer_literal_bounds :
    ∀ (fuel : Nat) (pre : List Char) (sgn : Int) (ds : List Char),
      (pre = [] ∧ sgn = 1) ∨ (pre = ['+'] ∧ sgn = 1) ∨ (pre = ['-'] ∧ sgn = -1) →
      ds ≠ [] →
      (∀ c ∈ ds, isAsciiDigit c = true) →
      parse (fuel + 1) (String.mk (pre ++ ds))
        = some (if denotedMagnitude ds ≤ 2147483647
            then .ok (.Integer (denotedMagnitude ds * sgn))
            else .error .IntegerOverflow) := by
  intro fuel pre sgn ds hpre hne hds
  obtain ⟨c, cs, rfl⟩ : ∃ c cs, ds = c :: cs := by
    cases ds with
    | nil => exact absurd rfl hne
    | cons c cs => exact ⟨c, cs, rfl⟩
  have hall : (c :: cs).all isAsciiDigit = true := List.all_eq_true.mpr hds
  have hacc := accumulate_spec (c :: cs) 0 (by omega) (by omega) hds
  rcases hpre with ⟨rfl, rfl⟩ | ⟨rfl, rfl⟩ | ⟨rfl, rfl⟩
  · have hc := hds c (List.mem_cons_self c cs)
    have hcm : c ≠ '-' := by intro h; subst h; simp [isAsciiDigit] at hc
    have hcp : c ≠ '+' := by intro h; subst h; simp [isAsciiDigit] at hc
    simp only [List.nil_append]
    have hn : IntegerParser.has_next (String.mk (c :: cs)) = true := by
      show (if c = '+' ∨ c = '-' then !(cs.isEmpty : Bool) && cs.all isAsciiDigit
        else (c :: cs).all isAsciiDigit) = true
      rw [if_neg (by simp [hcp, hcm])]
      exact hall
    rw [parse_succ]
    simp only [parseBody, hn, if_true]
    simp only [IntegerParser.parse]
    rw [show (String.mk (c :: cs)).toList = c :: cs from rfl]
    rw [sign_split_digit c cs hcm hcp]
    dsimp only
    rw [hacc]
    by_cases hle : denotedMagnitude (c :: cs) ≤ 2147483647
    · have hle' : List.foldl dstep 0 (c :: cs) ≤ 2147483647 := hle
      rw [if_pos hle', if_pos hle]
      simp [denotedMagnitude]
    · have hle' : ¬ List.foldl dstep 0 (c :: cs) ≤ 2147483647 := hle
      rw [if_neg hle', if_neg hle]
  · simp only [List.cons_append, List.nil_append]
    have hn : IntegerParser.has_next (String.mk ('+' :: c :: cs)) = true := by
      show (if '+' = '+' ∨ '+' = '-' then !((c :: cs).isEmpty : Bool) && (c :: cs).all isAsciiDigit
        else ('+' :: c :: cs).all isAsciiDigit) = true
      rw [if_pos (Or.inl rfl)]
      simp [hall]
    rw [parse_succ]
    simp only [parseBody, hn, if_true]
    simp only [IntegerParser.parse]
    rw [show (String.mk ('+' :: c :: cs)).toList = '+' :: c :: cs from rfl]
    rw [show IntegerParser.sign_split ('+' :: c :: cs) = (1, c :: cs) from rfl]
    dsimp only
    rw [hacc]
    by_cases hle : denotedMagnitude (c :: cs) ≤ 2147483647
    · have hle' : List.foldl dstep 0 (c :: cs) ≤ 2147483647 := hle
      rw [if_pos hle', if_pos hle]
      simp [denotedMagnitude]
    · have hle' : ¬ List.foldl dstep 0 (c :: cs) ≤ 2147483647 := hle
      rw [if_neg hle', if_neg hle]
  · simp only [List.cons_append, List.nil_append]
    have hn : IntegerParser.has_next (String.mk ('-' :: c :: cs)) = true := by
      show (if '-' = '+' ∨ '-' = '-' then !((c :: cs).isEmpty : Bool) && (c :: cs).all isAsciiDigit
        else ('-' :: c :: cs).all isAsciiDigit) = true
      rw [if_pos (Or.inr rfl)]
      simp [hall]
    rw [parse_succ]
    simp only [parseBody, hn, if_true]
    simp only [IntegerParser.parse]
    rw [show (String.mk ('-' :: c :: cs)).toList = '-' :: c :: cs from rfl]
    rw [show IntegerParser.sign_split ('-' :: c :: cs) = (-1, c :: cs) from rfl]
    dsimp only
    rw [hacc]
    by_cases hle : denotedMagnitude (c :: cs) ≤ 2147483647
    · have hle' : List.foldl dstep 0 (c :: cs) ≤ 2147483647 := hle
      rw [if_pos hle', if_pos hle]
      simp [denotedMagnitude]
    · have hle' : ¬ List.foldl dstep 0 (c :: cs) ≤ 2147483647 := hle
      rw [if_neg hle', if_neg hle]

/-- Witness for `integer_literal_bounds`: the boundary literal
`2147483647` parses to its value. -/
theorem integer_literal_bounds_witness :
    parse 1 (String.mk ['2', '1', '4', '7', '4', '8', '3', '6', '4', '7'])
      = some (.ok (.Integer 2147483647)) :=
  integer_literal_bounds 0 [] 1 ['2', '1', '4', '7', '4', '8', '3', '6', '4', '7']
    (Or.inl ⟨rfl, rfl⟩) (by decide) (by decide)

end Parsers


namespace Parsers


/-- C4 (confirmed): for a balanced bracketed form whose element split
succeeds, `BracketParser::parse` dispatches on the closing bracket: a
form closed by `)` with no elements is the empty-call error; closed by
`)` with an unquoted-symbol head it is `Funcall(head, rest)`; closed by
`)` with any other head (a non-symbol, or a quoted symbol) it is the
invalid-call error; closed by anything else (i.e. `]`) it is always a
literal `List` of the elements, empty included. -/
theorem bracket_form_dispatch :
    ∀ (p : String → Option (Except ParserError Value)) (buffer : String)
      (es : List Value),
      BracketParser.has_next buffer = true →
      BracketParser.bracketSplit p (buffer.drop 1).toList "" [] = some (.ok es) →
      (((buffer.drop 1).toList.getLast? = some ')') →
          (es = [] → BracketParser.parse p buffer = some (.error .EmptyFuncall))
        ∧ (∀ s rest, es = .Symbol s false :: rest →
            BracketParser.parse p buffer = some (.ok (.Funcall s rest)))
        ∧ (∀ hd rest, es = hd :: rest → headFormsCall hd = false →
            BracketParser.parse p buffer = some (.error .InvalidFuncall)))
      ∧ (((buffer.drop 1).toList.getLast? ≠ some ')') →
          BracketParser.parse p buffer = some (.ok (.List es))) := by
  intro p buffer es _hbal hsplit
  constructor
  · intro hlast
    refine ⟨?_, ?_, ?_⟩
    · intro he
      subst he
      simp only [BracketParser.parse]
      rw [hsplit]
      dsimp only
      rw [if_pos hlast]
      simp
    · intro s rest he
      subst he
      simp only [BracketParser.parse]
      rw [hsplit]
      dsimp only
      rw [if_pos hlast]
      simp
    · intro hd rest he hhd
      subst he
      simp only [BracketParser.parse]
      rw [hsplit]
      dsimp only
      rw [if_pos hlast]
      cases hd <;> simp_all [headFormsCall]
  · intro hlast
    simp only [BracketParser.parse]
    rw [hsplit]
    dsimp only
    rw [if_neg hlast]

/-- Witness for `bracket_form_dispatch`: `(f 1)` parses to
`Funcall(f, [1])`. -/
theorem bracket_form_dispatch_witness :
    BracketParser.parse (parse 5) "(f 1)"
      = some (.ok (.Funcall (Crisp.Symbol.from_str "f") [.Integer 1])) :=
  ((bracket_form_dispatch (parse 5) "(f 1)"
      [.Symbol (Crisp.Symbol.from_str "f") false, .Integer 1] rfl rfl).1
    rfl).2.1 (Crisp.Symbol.from_str "f") [.Integer 1] rfl

end Parsers

namespace Crisp

/-- C1 (corrected): a `let` Funcall binds (symbol name → evaluated value)
into the frame one level up from the `let` builtin's own just-pushed
frame — that is, into the frame that was *current* where the `let` form
appears (the let form's immediate caller, e.g. the implicit body `progn`
of a user-defined function), not into the frame of the caller of the
enclosing function. The binding therefore lives only as long as that
immediate caller's frame: it is gone once that caller returns (and,
while it lives, it *is* found by nested calls through the
innermost-to-outermost scan — see
`let_binding_not_in_function_callers_frame`). The ≥ 2 live-frame
requirement is met by construction, since `call` pushes the `let` frame
itself; with fewer frames `put_outer` would abort. -/
theorem let_binds_immediate_caller :
    ∀ (fuel : Nat) (env : Environment) (frame : Closure) (rest : List Closure)
      (name : String) (i : Int),
      env.stack = frame :: rest →
      env.functions_table.lookup (Symbol.from_str "let") = some (.Builtin .let_) →
      Value.eval (fuel + 2)
          (.Funcall (Symbol.from_str "let")
            [.Symbol (Symbol.new name .Single false), .Integer i]) env
        = .res (.ok (.Integer i))
            { env with
              stack := frame.put (Symbol.new name .Single false) (.Integer i) :: rest } := by
  intro fuel env frame rest name i hstack hfun
  obtain ⟨stack, table⟩ := env
  simp only at hstack
  subst hstack
  simp only [Environment.functions_table] at hfun
  dsimp only [Value.eval, evalBody, Environment.call, Environment.push_to_stack,
    Environment.get_function]
  rw [hfun]
  rfl

/-- Witness for `let_binds_immediate_caller`: `(let 'x 1)` at the top
level binds `x` into the top-level frame (the immediate caller's). -/
theorem let_binds_immediate_caller_witness :
    Value.eval 6 letTopProg Environment.new_configured
      = .res (.ok (.Integer 1))
          { Environment.new_configured with
            stack := [⟨"top-level", [("x", .Integer 1)]⟩] } :=
  let_binds_immediate_caller 4 Environment.new_configured ⟨"top-level", []⟩ [] "x" 1 rfl rfl

end Crisp


namespace Crisp


theorem callers_pres_same {α : Type} (env : Environment) (r : Except EvalError α) :
    CallersPres env (.res r env) := by
  intro r' env' h
  cases h
  rfl

theorem callers_pres_panicked {α : Type} (env : Environment) :
    CallersPres env (.panicked : Out α) := by
  intro r' env' h
  cases h

theorem callers_pres_timeout {α : Type} (env : Environment) :
    CallersPres env (.timeout : Out α) := by
  intro r' env' h
  cases h

theorem callers_pres_of_eq {α : Type} {env1 env2 : Environment} {o : Out α}
    (he : env2.callers = env1.callers) (h : CallersPres env2 o) : CallersPres env1 o := by
  intro r env' hr
  rw [h r env' hr, he]

theorem callers_pres_res_of_eq {α : Type} {env env2 : Environment} (r : Except EvalError α)
    (he : env2.callers = env.callers) : CallersPres env (.res r env2) := by
  intro r' env' h
  cases h
  exact he

theorem callers_pres_bind {α β : Type} {env : Environment} {o : Out α}
    {f : α → Environment → Out β}
    (h1 : CallersPres env o) (h2 : ∀ a e, CallersPres e (f a e)) :
    CallersPres env (o.bind f) := by
  intro r env' hb
  cases o with
  | res ro eo =>
    cases ro with
    | ok a =>
      exact (h2 a eo r env' (by simpa [Out.bind] using hb)).trans (h1 (.ok a) eo rfl)
    | error e =>
      simp only [Out.bind] at hb
      cases hb
      exact h1 _ _ rfl
  | panicked => simp [Out.bind] at hb
  | timeout => simp [Out.bind] at hb

theorem callers_pres_mismatch {α : Type} (env : Environment) (reason : String) :
    CallersPres env (mismatch (α := α) env reason) := by
  obtain ⟨st, tbl⟩ := env
  cases st with
  | nil => exact callers_pres_panicked _
  | cons c cs => exact callers_pres_same _ _

theorem putNearest_callers :
    ∀ (st : List Closure) (s : Symbol) (v : Value) (st' : List Closure),
      putNearest st s v = some st' → st'.map Closure.caller = st.map Closure.caller := by
  intro st
  induction st with
  | nil => intro s v st' h; simp [putNearest] at h
  | cons frame rest ih =>
    intro s v st' h
    simp only [putNearest] at h
    by_cases hh : frame.has s
    · rw [if_pos hh] at h
      cases h
      simp [Closure.put]
    · rw [if_neg hh] at h
      obtain ⟨st'', h'', rfl⟩ := Option.map_eq_some'.mp h
      simp [ih s v st'' h'']

theorem putLastFrame_callers :
    ∀ (st : List Closure) (s : Symbol) (v : Value) (st' : List Closure),
      putLastFrame st s v = some st' → st'.map Closure.caller = st.map Closure.caller := by
  intro st
  induction st with
  | nil => intro s v st' h; simp [putLastFrame] at h
  | cons frame rest ih =>
    intro s v st' h
    cases rest with
    | nil =>
      simp only [putLastFrame] at h
      cases h
      simp [Closure.put]
    | cons f2 r2 =>
      simp only [putLastFrame] at h
      obtain ⟨st'', h'', rfl⟩ := Option.map_eq_some'.mp h
      simp [ih s v st'' h'']

theorem put_current_callers (env : Environment) (s : Symbol) (v : Value)
    (env' : Environment) (h : env.put_current s v = some env') :
    env'.callers = env.callers := by
  obtain ⟨st, tbl⟩ := env
  cases st with
  | nil => simp [Environment.put_current] at h
  | cons frame rest =>
    simp only [Environment.put_current] at h
    cases h
    simp [Environment.callers, Closure.put]

theorem put_outer_callers (env : Environment) (s : Symbol) (v : Value)
    (env' : Environment) (h : env.put_outer s v = some env') :
    env'.callers = env.callers := by
  obtain ⟨st, tbl⟩ := env
  match st with
  | [] => simp [Environment.put_outer] at h
  | [c] => simp [Environment.put_outer] at h
  | c1 :: c0 :: rest =>
    simp only [Environment.put_outer] at h
    cases h
    simp [Environment.callers, Closure.put]

theorem put_top_level_callers (env : Environment) (s : Symbol) (v : Value)
    (env' : Environment) (h : env.put_top_level s v = some env') :
    env'.callers = env.callers := by
  simp only [Environment.put_top_level] at h
  obtain ⟨st', h', rfl⟩ := Option.map_eq_some'.mp h
  simpa [Environment.callers] using putLastFrame_callers env.stack s v st' h'

theorem pop_callers (env : Environment) : env.pop.callers = env.callers.tail := by
  obtain ⟨st, tbl⟩ := env
  cases st <;> rfl

end Crisp

namespace Crisp


section Pres

variable {ev : Ev}

theorem evalElements_pres (hev : ∀ (v : Value) (e : Environment), CallersPres e (ev v e)) :
    ∀ (l : List Value) (env : Environment),
    CallersPres env (evalElements ev l env) := by
  intro l
  induction l with
  | nil => intro env; exact callers_pres_same _ _
  | cons e es ih =>
    intro env
    exact callers_pres_bind (hev e env) fun a e1 =>
      callers_pres_bind (ih e1) fun b e2 => callers_pres_same _ _

theorem prognButLast_pres (hev : ∀ (v : Value) (e : Environment), CallersPres e (ev v e)) :
    ∀ (l : List Value) (env : Environment),
    CallersPres env (prognButLast ev l env) := by
  intro l
  induction l with
  | nil => intro env; exact callers_pres_same _ _
  | cons a rest ih =>
    intro env
    exact callers_pres_bind (hev a env) fun _ e1 => ih e1

theorem progn_pres (hev : ∀ (v : Value) (e : Environment), CallersPres e (ev v e))
    (env : Environment) (args : List Value) :
    CallersPres env (progn ev env args) := by
  unfold progn
  split
  · exact callers_pres_same _ _
  · exact callers_pres_bind (prognButLast_pres hev _ _) fun _ e1 => hev _ e1

theorem debugGo_pres (hev : ∀ (v : Value) (e : Environment), CallersPres e (ev v e)) :
    ∀ (l : List Value) (last : Value) (env : Environment),
    CallersPres env (debugGo ev l last env) := by
  intro l
  induction l with
  | nil => intro last env; exact callers_pres_same _ _
  | cons a rest ih =>
    intro last env
    exact callers_pres_bind (hev a env) fun v e1 => ih v e1

theorem debug_pres (hev : ∀ (v : Value) (e : Environment), CallersPres e (ev v e))
    (env : Environment) (args : List Value) :
    CallersPres env (debug ev env args) := by
  unfold debug
  split
  · exact callers_pres_same _ _
  · exact debugGo_pres hev _ _ _

theorem if_pres (hev : ∀ (v : Value) (e : Environment), CallersPres e (ev v e))
    (env : Environment) (args : List Value) :
    CallersPres env (if_ ev env args) := by
  unfold if_
  split
  · exact callers_pres_mismatch _ _
  · refine callers_pres_bind (hev _ _) fun v e1 => ?_
    split
    · exact callers_pres_mismatch _ _
    · dsimp only
      split
      · exact hev _ e1
      · exact progn_pres hev e1 _

theorem reduceGo_pres (hev : ∀ (v : Value) (e : Environment), CallersPres e (ev v e))
    {T : Type} (conversion : Value → Option T) (operation : T → T → Option T) :
    ∀ (args : List Value) (starting : T) (env : Environment),
      CallersPres env (reduceGo ev conversion operation args starting env) := by
  intro args
  induction args with
  | nil => intro starting env; exact callers_pres_same _ _
  | cons a rest ih =>
    intro starting env
    refine callers_pres_bind (hev a env) fun v e1 => ?_
    split
    · split
      · exact ih _ e1
      · exact callers_pres_panicked _
    · exact callers_pres_mismatch _ _

theorem reduce_pres (hev : ∀ (v : Value) (e : Environment), CallersPres e (ev v e))
    {T : Type} (env : Environment) (starting : Value) (args : List Value)
    (conversion : Value → Option T) (operation : T → T → Option T) :
    CallersPres env (reduce ev env starting args conversion operation) := by
  unfold reduce
  refine callers_pres_bind (hev _ _) fun sv e1 => ?_
  split
  · exact reduceGo_pres hev _ _ _ _ e1
  · exact callers_pres_mismatch _ _

theorem reduce_car_cdr_pres (hev : ∀ (v : Value) (e : Environment), CallersPres e (ev v e))
    {T : Type} (env : Environment) (args : List Value)
    (conversion : Value → Option T) (operation : T → T → Option T) :
    CallersPres env (reduce_car_cdr ev env args conversion operation) := by
  unfold reduce_car_cdr
  split
  · exact callers_pres_mismatch _ _
  · exact reduce_pres hev _ _ _ _ _

theorem some_args_pres (env : Environment) (args : List Value) :
    CallersPres env (some_args env args) := by
  unfold some_args
  split
  · exact callers_pres_mismatch _ _
  · exact callers_pres_same _ _

theorem list_arg_pres (hev : ∀ (v : Value) (e : Environment), CallersPres e (ev v e))
    (env : Environment) (args : List Value) :
    CallersPres env (list_arg ev env args) := by
  unfold list_arg
  split
  · refine callers_pres_bind (hev _ _) fun v e1 => ?_
    split
    · exact callers_pres_same _ _
    · exact callers_pres_mismatch _ _
  · exact callers_pres_mismatch _ _

theorem whileGo_pres (hev : ∀ (v : Value) (e : Environment), CallersPres e (ev v e)) :
    ∀ (fuel : Nat) (env : Environment) (args : List Value),
    CallersPres env (whileGo ev fuel env args) := by
  intro fuel
  induction fuel with
  | zero => intro env args; exact callers_pres_timeout _
  | succ n ih =>
    intro env args
    refine callers_pres_bind (hev _ _) fun v e1 => ?_
    split
    · exact callers_pres_same _ _
    · exact callers_pres_bind (hev _ _) fun _ e2 => ih e2 args

theorem while_pres (hev : ∀ (v : Value) (e : Environment), CallersPres e (ev v e))
    (fuel : Nat) (env : Environment) (args : List Value) :
    CallersPres env (while_ ev fuel env args) := by
  unfold while_
  split
  · exact callers_pres_mismatch _ _
  · exact whileGo_pres hev _ _ _

theorem symbol_binding_pres (hev : ∀ (v : Value) (e : Environment), CallersPres e (ev v e))
    (env : Environment) (symbol value : Value) :
    CallersPres env (symbol_binding ev env symbol value) := by
  unfold symbol_binding
  refine callers_pres_bind (hev _ _) fun sv e1 => ?_
  split
  · exact callers_pres_bind (hev _ _) fun v e2 => callers_pres_same _ _
  · exact callers_pres_mismatch _ _

theorem symbol_binding_argslist_pres
    (hev : ∀ (v : Value) (e : Environment), CallersPres e (ev v e))
    (env : Environment) (args : List Value) :
    CallersPres env (symbol_binding_argslist ev env args) := by
  unfold symbol_binding_argslist
  split
  · exact callers_pres_mismatch _ _
  · exact symbol_binding_pres hev _ _ _

theorem set_pres (hev : ∀ (v : Value) (e : Environment), CallersPres e (ev v e))
    (env : Environment) (args : List Value) :
    CallersPres env (set ev env args) := by
  unfold set
  refine callers_pres_bind (symbol_binding_argslist_pres hev _ _) fun sv e1 => ?_
  cases hn : putNearest e1.stack sv.1 sv.2 with
  | some st =>
    exact callers_pres_res_of_eq _ (by
      simpa [Environment.callers] using putNearest_callers e1.stack sv.1 sv.2 st hn)
  | none =>
    cases ht : e1.put_top_level sv.1 sv.2 with
    | some e2 => exact callers_pres_res_of_eq _ (put_top_level_callers e1 sv.1 sv.2 e2 ht)
    | none => exact callers_pres_panicked _

theorem let_pres (hev : ∀ (v : Value) (e : Environment), CallersPres e (ev v e))
    (env : Environment) (args : List Value) :
    CallersPres env (let_ ev env args) := by
  unfold let_
  refine callers_pres_bind (symbol_binding_argslist_pres hev _ _) fun sv e1 => ?_
  cases ho : e1.put_outer sv.1 sv.2 with
  | some e2 => exact callers_pres_res_of_eq _ (put_outer_callers e1 sv.1 sv.2 e2 ho)
  | none => exact callers_pres_panicked _

theorem eq_pres (hev : ∀ (v : Value) (e : Environment), CallersPres e (ev v e))
    (env : Environment) (args : List Value) :
    CallersPres env (eq ev env args) := by
  unfold eq
  exact reduce_car_cdr_pres hev _ _ _ _

theorem neq_pres (hev : ∀ (v : Value) (e : Environment), CallersPres e (ev v e))
    (env : Environment) (args : List Value) :
    CallersPres env (neq ev env args) := by
  unfold neq
  refine callers_pres_bind (eq_pres hev _ _) fun v e1 => ?_
  split
  · exact callers_pres_same _ _
  · exact callers_pres_same _ _

theorem add_pres (hev : ∀ (v : Value) (e : Environment), CallersPres e (ev v e))
    (env : Environment) (args : List Value) :
    CallersPres env (add ev env args) := by
  unfold add
  exact callers_pres_bind (some_args_pres _ _) fun a e1 =>
    callers_pres_bind (reduce_pres hev _ _ _ _ _) fun n e2 => callers_pres_same _ _

theorem sub_pres (hev : ∀ (v : Value) (e : Environment), CallersPres e (ev v e))
    (env : Environment) (args : List Value) :
    CallersPres env (sub ev env args) := by
  unfold sub
  split
  · split
    · exact callers_pres_same _ _
    · exact callers_pres_mismatch _ _
  · exact callers_pres_bind (reduce_car_cdr_pres hev _ _ _ _) fun n e1 =>
      callers_pres_same _ _

theorem mul_pres (hev : ∀ (v : Value) (e : Environment), CallersPres e (ev v e))
    (env : Environment) (args : List Value) :
    CallersPres env (mul ev env args) := by
  unfold mul
  exact callers_pres_bind (some_args_pres _ _) fun a e1 =>
    callers_pres_bind (reduce_pres hev _ _ _ _ _) fun n e2 => callers_pres_same _ _

theorem div_pres (hev : ∀ (v : Value) (e : Environment), CallersPres e (ev v e))
    (env : Environment) (args : List Value) :
    CallersPres env (div ev env args) := by
  unfold div
  exact callers_pres_bind (reduce_car_cdr_pres hev _ _ _ _) fun n e1 =>
    callers_pres_same _ _

theorem car_pres (hev : ∀ (v : Value) (e : Environment), CallersPres e (ev v e))
    (env : Environment) (args : List Value) :
    CallersPres env (car ev env args) := by
  unfold car
  refine callers_pres_bind (list_arg_pres hev _ _) fun v e1 => ?_
  split
  · exact hev _ e1
  · exact callers_pres_mismatch _ _

theorem cdr_pres (hev : ∀ (v : Value) (e : Environment), CallersPres e (ev v e))
    (env : Environment) (args : List Value) :
    CallersPres env (cdr ev env args) := by
  unfold cdr
  refine callers_pres_bind (list_arg_pres hev _ _) fun v e1 => ?_
  split
  · exact hev _ e1
  · exact callers_pres_mismatch _ _

theorem defun_pres (env : Environment) (args : List Value) :
    CallersPres env (defun env args) := by
  unfold defun
  split
  · exact callers_pres_mismatch _ _
  · split
    · split
      · split
        · exact callers_pres_mismatch _ _
        · exact callers_pres_res_of_eq _ rfl
      · exact callers_pres_mismatch _ _
    · exact callers_pres_mismatch _ _

theorem bindTakes_pres (hev : ∀ (v : Value) (e : Environment), CallersPres e (ev v e)) :
    ∀ (takes : List Symbol) (args : List Value) (env : Environment),
    CallersPres env (bindTakes ev takes args env) := by
  intro takes
  induction takes with
  | nil => intro args env; exact callers_pres_same _ _
  | cons s ts ih =>
    intro args env
    simp only [bindTakes]
    split
    · refine callers_pres_bind ?_ fun value e1 => ?_
      · split
        · exact callers_pres_same _ _
        · exact hev _ _
      · cases hp : e1.put_current s value with
        | some e2 => exact callers_pres_res_of_eq _ (put_current_callers e1 s value e2 hp)
        | none => exact callers_pres_panicked _
    · split
      · exact callers_pres_same _ _
      · refine callers_pres_bind ?_ fun value e1 => ?_
        · split
          · exact callers_pres_same _ _
          · exact hev _ _
        · cases hp : e1.put_current s value with
          | some e2 =>
            exact callers_pres_of_eq (put_current_callers e1 s value e2 hp) (ih _ e2)
          | none => exact callers_pres_panicked _

theorem eval_defun_pres (hev : ∀ (v : Value) (e : Environment), CallersPres e (ev v e))
    (env : Environment) (d : Crisp.Defun) (args : List Value) :
    CallersPres env (Function.eval_defun ev env d args) := by
  unfold Function.eval_defun
  exact callers_pres_bind (bindTakes_pres hev _ _ _) fun _ e1 => hev _ e1

theorem runBuiltin_pres (hev : ∀ (v : Value) (e : Environment), CallersPres e (ev v e))
    (fuel : Nat) (name : BuiltinName) (env : Environment) (args : List Value) :
    CallersPres env (runBuiltin ev fuel name env args) := by
  cases name with
  | progn => exact progn_pres hev env args
  | debug => exact debug_pres hev env args
  | if_ => exact if_pres hev env args
  | while_ => exact while_pres hev fuel env args
  | set => exact set_pres hev env args
  | let_ => exact let_pres hev env args
  | eq => exact eq_pres hev env args
  | neq => exact neq_pres hev env args
  | add => exact add_pres hev env args
  | sub => exact sub_pres hev env args
  | mul => exact mul_pres hev env args
  | div => exact div_pres hev env args
  | car => exact car_pres hev env args
  | cdr => exact cdr_pres hev env args
  | defun => exact defun_pres env args

theorem function_call_pres (hev : ∀ (v : Value) (e : Environment), CallersPres e (ev v e))
    (fuel : Nat) (f : Function) (env : Environment) (args : List Value) :
    CallersPres env (Function.call ev fuel f env args) := by
  cases f with
  | Builtin name => exact runBuiltin_pres hev fuel name env args
  | Defun d => exact eval_defun_pres hev env d args

theorem environment_call_pres (hev : ∀ (v : Value) (e : Environment), CallersPres e (ev v e))
    (fuel : Nat) (env : Environment) (s : Symbol) (args : List Value) :
    CallersPres env (Environment.call ev fuel env s args) := by
  intro r env' h
  unfold Environment.call at h
  dsimp only at h
  have hpush : (env.push_to_stack s.name).callers = s.name :: env.callers := rfl
  cases hf : (env.push_to_stack s.name).get_function s with
  | some f =>
    rw [hf] at h
    dsimp only at h
    cases ho : Function.call ev fuel f (env.push_to_stack s.name) args with
    | res r2 e2 =>
      rw [ho] at h
      simp only [popAfter] at h
      cases h
      have h2 : e2.callers = s.name :: env.callers :=
        (function_call_pres hev fuel f _ args _ _ ho).trans hpush
      rw [pop_callers, h2]
      rfl
    | panicked => rw [ho] at h; simp [popAfter] at h
    | timeout => rw [ho] at h; simp [popAfter] at h
  | none =>
    rw [hf] at h
    dsimp only at h
    simp only [popAfter] at h
    cases h
    rw [pop_callers, hpush]
    rfl

theorem evalBody_pres (hev : ∀ (v : Value) (e : Environment), CallersPres e (ev v e))
    (fuel : Nat) : ∀ (v : Value) (env : Environment),
    CallersPres env (evalBody ev fuel v env) := by
  intro v env
  cases v with
  | Symbol symbol =>
    unfold evalBody
    dsimp only
    cases hq : symbol.quote with
    | Single => exact callers_pres_same _ _
    | None =>
      cases hl : env.lookup symbol with
      | some found => exact callers_pres_same _ _
      | none => exact callers_pres_same _ _
    | Eval =>
      cases hl : env.lookup symbol with
      | some found => exact hev found env
      | none => exact callers_pres_same _ _
  | Funcall symbol args => exact environment_call_pres hev fuel env symbol args
  | List elements =>
    exact callers_pres_bind (evalElements_pres hev _ _) fun vs e1 => callers_pres_same _ _
  | Nil => exact callers_pres_same _ _
  | T => exact callers_pres_same _ _
  | Integer i => exact callers_pres_same _ _
  | String s => exact callers_pres_same _ _

theorem eval_callers_pres : ∀ (fuel : Nat) (v : Value) (env : Environment),
    CallersPres env (Value.eval fuel v env) := by
  intro fuel
  induction fuel with
  | zero => intro v env; exact callers_pres_timeout _
  | succ n ih => intro v env; exact evalBody_pres ih n v env

end Pres

/-- C8 (corrected): every call pushes a labelled frame, resolves the name
in the global function table, invokes, and pops on both exit paths, so
the frame stack after any evaluation has the same depth and caller
labels as before it, whether it succeeds or errors (first conjunct; the
frames' *contents* may be mutated by the call — see
`call_mutates_caller_frame`). Calling a name not in the function table
fails with `FunctionDefinitionIsVoid` and leaves the environment exactly
as it was — though in the code the labelled frame *is* pushed before the
name is resolved, and popped again on that error path (second
conjunct). -/
theorem call_frame_discipline :
    (∀ (fuel : Nat) (v : Value) (env : Environment) (r : Except EvalError Value)
        (env' : Environment),
      Value.eval fuel v env = .res r env' → env'.callers = env.callers)
    ∧ (∀ (ev : Ev) (fuel : Nat) (env : Environment) (s : Symbol) (args : List Value),
      env.get_function s = none →
      Environment.call ev fuel env s args
        = .res (.error (.FunctionDefinitionIsVoid s.name)) env) := by
  constructor
  · intro fuel v env r env' h
    exact eval_callers_pres fuel v env r env' h
  · intro ev fuel env s args h
    simp only [Environment.get_function] at h
    dsimp only [Environment.call, Environment.push_to_stack, Environment.get_function]
    rw [h]
    rfl

/-- Witness for `call_frame_discipline`: calling the unregistered name
`nope` in a fresh configured environment fails with
`FunctionDefinitionIsVoid` and returns the environment unchanged, and a
successful evaluation preserves the frame labels. -/
theorem call_frame_discipline_witness :
    Environment.call (Value.eval 5) 5 Environment.new_configured (Symbol.from_str "nope") []
      = .res (.error (.FunctionDefinitionIsVoid "nope")) Environment.new_configured
    ∧ wEnv.callers = wEnv.callers :=
  ⟨call_frame_discipline.2 (Value.eval 5) 5 Environment.new_configured
      (Symbol.from_str "nope") [] rfl,
   call_frame_discipline.1 5 (.Integer 3) wEnv (.ok (.Integer 3)) wEnv rfl⟩

end Crisp
